import Mathlib

/-!
# Verification of the CCD reduction guide's synthetic frame generator and notebook cells

This development gives a shallow embedding of the computational content of the
`ccd-reduction-and-photometry-guide` notebooks:

* the synthetic frame generator `image_sim.dark_current` / `image_sim.read_noise`
  (imported by notebooks `03.01` and `01.09`; the module itself is not part of the
  source tree, so its definitions below are modelled from the specification's
  description of its behaviour),
* the overlay-parameter formulas of `plot_dark_with_distributions` and of the
  sum-of-frames histogram cell in notebook `03.01`,
* the fake FITS image generation loop of notebook `01.09`.

Frames are modelled as dimensioned 2-D arrays; the random source of the generator
is modelled explicitly, as a matrix of draws handed to the generator, while the
distribution the spec prescribes for each pixel is modelled separately via
`PMF`/`Measure` (Poisson and Gaussian laws from Mathlib).
-/

open scoped ENNReal NNReal
open MeasureTheory Real Filter Topology ProbabilityTheory

namespace CCDGuide

/-- A 2-D numeric array of per-pixel values: dimensions fixed at creation, with a
total indexing function for entries (indices outside the dimensions are irrelevant
to every statement below). -/
structure Arr (α : Type) where
  rows : ℕ
  cols : ℕ
  data : ℕ → ℕ → α

/-- The shape of an array, as the pair (number of rows, number of columns). -/
def Arr.shape {α : Type} (a : Arr α) : ℕ × ℕ := (a.rows, a.cols)

/-- An all-zero template frame, as built by `np.zeros([image_size, image_size])` in
notebook 03.01. -/
def zeros (r c : ℕ) : Arr ℝ := ⟨r, c, fun _ _ => 0⟩

/-- Modelled from the spec: `image_sim` is imported by the notebooks but absent from
the source tree. Per the spec, `dark_current` draws each pixel "with mean
`rate * exposure_time / gain`". Numeric parameters are modelled as rationals (exact
values of the notebook's float literals). -/
def pixelMean (rate exposure_time gain : ℚ) : ℚ := rate * exposure_time / gain

/-- Modelled from the spec: the hot-pixel behaviour of `image_sim.dark_current` uses
"a small fixed fraction" of pixels and "a substantially higher rate"; both constants
are internal to the missing module, so the model carries them as an explicit
configuration. -/
structure HotConfig where
  fraction : ℚ
  boost : ℚ

/-- Modelled from the spec: the rate used for one pixel. When `hot_pixels` is enabled
the pixels selected by the (randomly generated) mask "instead use a substantially
higher rate"; otherwise every pixel uses the supplied `rate`. -/
def pixelRate (rate : ℚ) (hot_pixels : Bool) (cfg : HotConfig)
    (rawMask : ℕ → ℕ → Bool) (i j : ℕ) : ℚ :=
  if hot_pixels && rawMask i j then cfg.boost else rate

/-- Modelled from the spec: the boolean hot-pixel mask "generated once per call", an
array of the same shape as the frame it belongs to. -/
def hotMask (base_frame : Arr ℝ) (rawMask : ℕ → ℕ → Bool) : Arr Bool :=
  ⟨base_frame.rows, base_frame.cols, rawMask⟩

/-- Modelled from the spec: `image_sim.dark_current(base_frame, rate, exposure_time,
gain, hot_pixels=False)`. For each pixel it draws a Poisson-distributed count with
mean `rate * exposure_time / gain` (the distributional content of the draws is
modelled separately by `darkPixelLaw`); the random source is modelled as the explicit
family `draw`, giving for each pixel the count drawn at a given mean. Returns a new
array shaped like `base_frame`. -/
def dark_current (base_frame : Arr ℝ) (rate exposure_time gain : ℚ)
    (hot_pixels : Bool) (cfg : HotConfig) (rawMask : ℕ → ℕ → Bool)
    (draw : ℕ → ℕ → ℚ → ℕ) : Arr ℝ :=
  { rows := base_frame.rows
    cols := base_frame.cols
    data := fun i j =>
      ((draw i j (pixelMean (pixelRate rate hot_pixels cfg rawMask i j)
        exposure_time gain) : ℕ) : ℝ) }

/-- Modelled from the spec: `image_sim.read_noise(base_frame, read_noise_electrons,
gain)`. For each pixel it draws a zero-mean Gaussian sample with standard deviation
`read_noise_electrons / gain` (distributional content modelled separately by
`readPixelLaw`); the random source is the explicit family `draw`, giving for each
pixel the sample drawn at a given standard deviation. Returns a new array shaped
like `base_frame`. -/
def read_noise (base_frame : Arr ℝ) (read_noise_electrons gain : ℚ)
    (draw : ℕ → ℕ → ℚ → ℝ) : Arr ℝ :=
  { rows := base_frame.rows
    cols := base_frame.cols
    data := fun i j => draw i j (read_noise_electrons / gain) }

/-- The set of pixel indices of an `r × c` frame. -/
def pixelIndices (r c : ℕ) : Finset (ℕ × ℕ) := Finset.range r ×ˢ Finset.range c

/-- Number of pixels marked hot by a raw mask within an `r × c` frame. -/
def maskCard (r c : ℕ) (rawMask : ℕ → ℕ → Bool) : ℕ :=
  ((pixelIndices r c).filter fun p => rawMask p.1 p.2).card

/-- Modelled from the spec: the number of hot pixels is the configured "small fixed
fraction" of the pixel count. -/
def hotCount (cfg : HotConfig) (r c : ℕ) : ℕ := Nat.floor (cfg.fraction * (r * c : ℚ))

/-- Modelled from the spec: a raw mask is a valid hot-pixel selection for an `r × c`
frame when it marks exactly the configured fraction of the pixels. -/
def MaskValid (cfg : HotConfig) (r c : ℕ) (rawMask : ℕ → ℕ → Bool) : Prop :=
  maskCard r c rawMask = hotCount cfg r c

/-- The pixels of an `r × c` frame to which `dark_current` assigns the elevated
rate rather than the supplied one. -/
def elevatedPixels (rate : ℚ) (hot_pixels : Bool) (cfg : HotConfig)
    (rawMask : ℕ → ℕ → Bool) (r c : ℕ) : Finset (ℕ × ℕ) :=
  (pixelIndices r c).filter fun p =>
    pixelRate rate hot_pixels cfg rawMask p.1 p.2 ≠ rate

/-- Modelled from the spec: the random-distribution library's Poisson sampler, which
"reports a domain error" for an invalid (negative) mean and otherwise returns the
drawn count; `dark_current` is expected to propagate this error unchanged. -/
def libPoissonSample (mean : ℚ) (draw : ℕ) : Except String ℕ :=
  if mean < 0 then Except.error "ValueError: lam < 0" else Except.ok draw

/-- The first error raised by the library's sampler while drawing the pixels of a
frame in row-major order, if any. -/
def firstSampleError (base_frame : Arr ℝ) (rate exposure_time gain : ℚ)
    (hot_pixels : Bool) (cfg : HotConfig) (rawMask : ℕ → ℕ → Bool)
    (draw : ℕ → ℕ → ℚ → ℕ) : Option String :=
  (List.range base_frame.rows).findSome? fun i =>
    (List.range base_frame.cols).findSome? fun j =>
      match libPoissonSample (pixelMean (pixelRate rate hot_pixels cfg rawMask i j)
          exposure_time gain) (draw i j (pixelMean (pixelRate rate hot_pixels cfg
          rawMask i j) exposure_time gain)) with
      | Except.error e => some e
      | Except.ok _ => none

/-- Modelled from the spec: `dark_current` seen together with the library's domain
check: every pixel's mean is handed to the library sampler, the first error raised
propagates directly to the caller, and otherwise the sampled frame is returned. No
validation or recovery is performed by the generator itself. -/
def dark_currentE (base_frame : Arr ℝ) (rate exposure_time gain : ℚ)
    (hot_pixels : Bool) (cfg : HotConfig) (rawMask : ℕ → ℕ → Bool)
    (draw : ℕ → ℕ → ℚ → ℕ) : Except String (Arr ℝ) :=
  match firstSampleError base_frame rate exposure_time gain hot_pixels cfg
      rawMask draw with
  | some e => Except.error e
  | none => Except.ok (dark_current base_frame rate exposure_time gain hot_pixels
      cfg rawMask draw)

/-- Modelled from the spec: the random-distribution library's Gaussian sampler,
which reports a domain error for an invalid (negative) standard deviation and
otherwise returns the drawn sample; `read_noise` is expected to propagate this
error unchanged. -/
def libGaussSample (scale : ℚ) (draw : ℝ) : Except String ℝ :=
  if scale < 0 then Except.error "ValueError: scale < 0" else Except.ok draw

/-- The first error raised by the library's Gaussian sampler while drawing the
pixels of a read-noise frame in row-major order, if any. -/
def firstGaussError (base_frame : Arr ℝ) (read_noise_electrons gain : ℚ)
    (draw : ℕ → ℕ → ℚ → ℝ) : Option String :=
  (List.range base_frame.rows).findSome? fun i =>
    (List.range base_frame.cols).findSome? fun j =>
      match libGaussSample (read_noise_electrons / gain)
          (draw i j (read_noise_electrons / gain)) with
      | Except.error e => some e
      | Except.ok _ => none

/-- Modelled from the spec: `read_noise` seen together with the library's domain
check: the per-pixel standard deviation is handed to the library sampler, the
first error raised propagates directly to the caller, and otherwise the sampled
frame is returned. No validation or recovery is performed by the generator
itself. -/
def read_noiseE (base_frame : Arr ℝ) (read_noise_electrons gain : ℚ)
    (draw : ℕ → ℕ → ℚ → ℝ) : Except String (Arr ℝ) :=
  match firstGaussError base_frame read_noise_electrons gain draw with
  | some e => Except.error e
  | none => Except.ok (read_noise base_frame read_noise_electrons gain draw)

/-- The state threaded through the dark-frame loop of notebook 03.01 (cell
"darks[n] = dark_current(...); darks[n] = darks[n] + read_noise(...)"): the
all-zero template and the list of dark frames generated so far. -/
structure SimLoopState where
  base_image : Arr ℝ
  darks : List (Arr ℝ)

/-- Elementwise sum of two frames (`darks[n] + read_noise(...)`). -/
def addArr (a b : Arr ℝ) : Arr ℝ :=
  ⟨a.rows, a.cols, fun i j => a.data i j + b.data i j⟩

/-- One iteration of the notebook's dark-frame loop: generate a dark frame and a
read-noise frame from the shared template and record their sum. Both generator
calls return fresh arrays; the template is only read. -/
def darkLoopStep (rate exposure_time gain rn : ℚ) (cfg : HotConfig)
    (rawMask : ℕ → ℕ → Bool) (drawD : ℕ → ℕ → ℚ → ℕ) (drawR : ℕ → ℕ → ℚ → ℝ)
    (s : SimLoopState) : SimLoopState :=
  { base_image := s.base_image
    darks := addArr
        (dark_current s.base_image rate exposure_time gain false cfg rawMask drawD)
        (read_noise s.base_image rn gain drawR) :: s.darks }

/-- Per-pixel law of `dark_current` as the spec prescribes it: a Poisson-distributed
count with mean `rate * exposure_time / gain`. -/
noncomputable def darkPixelLaw (rate exposure_time gain : ℝ) : PMF ℕ :=
  poissonPMF (Real.toNNReal (rate * exposure_time / gain))

/-- The per-pixel law of `dark_current`, pushed forward to the real pixel values
recorded in the output array. -/
noncomputable def darkPixelValueLaw (rate exposure_time gain : ℝ) : Measure ℝ :=
  Measure.map (fun n : ℕ => (n : ℝ)) (darkPixelLaw rate exposure_time gain).toMeasure

/-- Per-pixel law of `read_noise` as the spec prescribes it: a zero-mean Gaussian
with standard deviation `read_noise_electrons / gain` (so with variance the square
of that). -/
noncomputable def readPixelLaw (read_noise_electrons gain : ℝ) : Measure ℝ :=
  gaussianReal 0 (Real.toNNReal (read_noise_electrons / gain) ^ 2)

/-- `expected_mean_dark = dark_rate * exposure / gain` as computed inside
`plot_dark_with_distributions` (notebook 03.01). -/
noncomputable def expected_mean_dark (dark_rate exposure gain : ℝ) : ℝ := dark_rate * exposure / gain

/-- Mean of the Poisson overlay built by `plot_dark_with_distributions`:
`stats.poisson(expected_mean_dark * n_images)`. -/
noncomputable def plotPoissonMean (dark_rate exposure gain : ℝ) (n_images : ℕ) : ℝ :=
  expected_mean_dark dark_rate exposure gain * n_images

/-- Location of the Gaussian overlay built by `plot_dark_with_distributions`:
`stats.norm(loc=expected_mean_dark, scale=rn / gain)`. -/
noncomputable def plotGaussLoc (dark_rate exposure gain : ℝ) (_n_images : ℕ) : ℝ :=
  expected_mean_dark dark_rate exposure gain

/-- Scale of the Gaussian overlay built by `plot_dark_with_distributions`:
`stats.norm(loc=expected_mean_dark, scale=rn / gain)` — independent of `n_images`. -/
noncomputable def plotGaussScale (rn gain : ℝ) (_n_images : ℕ) : ℝ := rn / gain

/-- Location of the Gaussian overlay in the sum-of-frames cell of notebook 03.01:
`stats.norm(loc=expected_mean_dark * n_images, ...)`. -/
noncomputable def sumCellGaussLoc (dark_rate exposure gain : ℝ) (n_images : ℕ) : ℝ :=
  expected_mean_dark dark_rate exposure gain * n_images

/-- Scale of the Gaussian overlay in the sum-of-frames cell of notebook 03.01:
`scale=high_read_noise / gain * np.sqrt(n_images)`. -/
noncomputable def sumCellGaussScale (rn gain : ℝ) (n_images : ℕ) : ℝ :=
  rn / gain * Real.sqrt n_images

/-- One generated fake FITS image of notebook 01.09: its sequential file index, the
`IMAGETYP` and `EXPOSURE` header keywords (always written), the optional `FILTER`
and `OBJECT` keywords, and the data shape. -/
structure FakeImage where
  fileIndex : ℕ
  imagetyp : String
  exposure : ℚ
  filterName : Option String
  objectName : Option String
  shape : List ℕ
deriving DecidableEq

/-- `images_to_generate` of notebook 01.09, in the dict's insertion order. -/
def images_to_generate : List (String × ℕ) :=
  [("BIAS", 5), ("DARK", 10), ("FLAT", 3), ("LIGHT", 10)]

/-- `exposure_times` of notebook 01.09 (float literals as exact rationals). -/
def exposure_times (t : String) : List ℚ :=
  if t = "BIAS" then [0]
  else if t = "DARK" then [5, 30]
  else if t = "FLAT" then [5, mkRat 61 10, mkRat 73 10]
  else if t = "LIGHT" then [30]
  else []

/-- `filters` of notebook 01.09: the `cycle` of the string `'V'` yields the single
character `V` forever, for `FLAT` and `LIGHT` only; other types get no filter. -/
def filtersDict (t : String) : Option (List String) :=
  if t = "FLAT" ∨ t = "LIGHT" then some ["V"] else none

/-- `objects` of notebook 01.09: `LIGHT` images cycle through `['m82', 'xx cyg']`. -/
def objectsDict (t : String) : Option (List String) :=
  if t = "LIGHT" then some ["m82", "xx cyg"] else none

/-- `image_size = [300, 200]` of notebook 01.09. -/
def image_size : List ℕ := [300, 200]

/-- `next` on `itertools.cycle(l)` after `k` prior calls: the `k`-th element of `l`,
cyclically. -/
def cycleGet {α : Type} (l : List α) (d : α) (k : ℕ) : α := l.getD (k % l.length) d

/-- The images generated for one image type: the inner `for _ in range(num)` loop of
notebook 01.09, with `startIdx` the value of `image_number` on entry. -/
def genImagesOfType (typ : String) (num startIdx : ℕ) : List FakeImage :=
  (List.range num).map fun k =>
    { fileIndex := startIdx + k
      imagetyp := typ
      exposure := cycleGet (exposure_times typ) 0 k
      filterName := (filtersDict typ).map fun l => cycleGet l "" k
      objectName := (objectsDict typ).map fun l => cycleGet l "" k
      shape := image_size }

/-- The outer loop over `images_to_generate.items()`, threading `image_number`. -/
def genLoop : List (String × ℕ) → ℕ → List FakeImage
  | [], _ => []
  | (typ, num) :: rest, idx => genImagesOfType typ num idx ++ genLoop rest (idx + num)

/-- All fake images generated by notebook 01.09's generation cell. -/
def generated_images : List FakeImage := genLoop images_to_generate 0

/-- Zero-padding of a file index to four digits, as in the format `img-0000`. -/
def pad4 (n : ℕ) : String :=
  if n < 10 then "000" ++ toString n
  else if n < 100 then "00" ++ toString n
  else if n < 1000 then "0" ++ toString n
  else toString n

/-- The FITS file name written for a given image number in notebook 01.09. -/
def fitsFileName (n : ℕ) : String := "img-" ++ pad4 n ++ ".fits"

/-! ## Helper lemmas -/

/-- A Poisson distribution with rate `0` is the point mass at `0`. -/
theorem poissonPMF_zero_eq_pure : poissonPMF 0 = PMF.pure 0 := by
  ext n
  show ENNReal.ofReal (poissonPMFReal 0 n) = PMF.pure 0 n
  rw [PMF.pure_apply]
  cases n with
  | zero => simp [poissonPMFReal]
  | succ m => simp [poissonPMFReal]

/-- Casting a natural number to a real is measurable (the domain is discrete). -/
theorem measurable_natCast_real : Measurable (fun n : ℕ => (n : ℝ)) :=
  measurable_from_top

/-- The zero-rate specialisations of the per-pixel laws: zero dark-current rate
gives the point mass at zero counts. -/
theorem darkPixelLaw_zero (t g : ℝ) : darkPixelLaw 0 t g = PMF.pure 0 := by
  unfold darkPixelLaw
  rw [show (0 : ℝ) * t / g = 0 by ring, Real.toNNReal_zero]
  exact poissonPMF_zero_eq_pure

/-- Zero read noise gives the point mass at zero. -/
theorem readPixelLaw_zero (g : ℝ) : readPixelLaw 0 g = Measure.dirac 0 := by
  unfold readPixelLaw
  rw [zero_div, Real.toNNReal_zero]
  simp [gaussianReal_zero_var]

/-- The value-level law of a zero-rate dark frame pixel is the point mass at `0`. -/
theorem darkPixelValueLaw_zero (t g : ℝ) : darkPixelValueLaw 0 t g = Measure.dirac 0 := by
  unfold darkPixelValueLaw
  rw [darkPixelLaw_zero, PMF.toMeasure_pure, Measure.map_dirac measurable_natCast_real]
  simp

/-- Pushing a probability space's point mass forward along a constant map gives the
point mass at that constant. -/
theorem map_const_zero_dirac :
    Measure.map (fun _ : ℕ => (0 : ℝ)) (Measure.dirac (0 : ℕ)) = Measure.dirac (0 : ℝ) := by
  rw [Measure.map_const]
  simp

/-- Constant random variables on a probability space are independent. -/
theorem indepFun_const_of_prob {Ω : Type} {mΩ : MeasurableSpace Ω} {μ : Measure Ω}
    [IsProbabilityMeasure μ] (c d : ℝ) :
    IndepFun (fun _ : Ω => c) (fun _ : Ω => d) μ := by
  rw [indepFun_iff_measure_inter_preimage_eq_mul]
  intro s t _ _
  by_cases hcs : c ∈ s
  · by_cases hdt : d ∈ t
    · rw [Set.preimage_const_of_mem hcs, Set.preimage_const_of_mem hdt]
      simp
    · rw [Set.preimage_const_of_not_mem hdt]
      simp
  · rw [Set.preimage_const_of_not_mem hcs]
    simp

/-- The count-weighted Poisson pmf series sums to the Poisson rate: the mean of a
Poisson distribution is its rate. -/
theorem poisson_hasSum_mean (r : ℝ≥0) :
    HasSum (fun n : ℕ => poissonPMFReal r n * n) (r : ℝ) := by
  have h0 : HasSum (fun n : ℕ => ((r : ℝ)) ^ n / n.factorial) (Real.exp r) := by
    rw [Real.exp_eq_exp_ℝ]
    exact NormedSpace.expSeries_div_hasSum_exp ℝ (r : ℝ)
  have h1 := h0.mul_left (Real.exp (-(r : ℝ)) * (r : ℝ))
  have h2 : (fun n : ℕ => Real.exp (-(r : ℝ)) * (r : ℝ) * ((r : ℝ) ^ n / n.factorial))
      = fun n : ℕ => poissonPMFReal r (n + 1) * ((n + 1 : ℕ) : ℝ) := by
    funext n
    unfold poissonPMFReal
    rw [Nat.factorial_succ]
    have hfac : ((n.factorial : ℝ)) ≠ 0 := Nat.cast_ne_zero.mpr n.factorial_ne_zero
    have hn1 : ((n : ℝ) + 1) ≠ 0 := by positivity
    push_cast
    field_simp
    ring
  rw [h2] at h1
  have h4 : Real.exp (-(r : ℝ)) * (r : ℝ) * Real.exp (r : ℝ) = (r : ℝ) := by
    rw [mul_comm (Real.exp (-(r : ℝ))) (r : ℝ), mul_assoc, ← Real.exp_add]
    simp
  rw [h4] at h1
  have h5 := (@hasSum_nat_add_iff ℝ _ (r : ℝ) _ _
    (fun n : ℕ => poissonPMFReal r n * n) 1).mp h1
  simpa using h5

/-- The identity is integrable for the Poisson distribution (its mean is finite). -/
theorem integrable_natCast_poisson (r : ℝ≥0) :
    Integrable (fun n : ℕ => (n : ℝ)) (poissonPMF r).toMeasure := by
  constructor
  · exact measurable_natCast_real.aestronglyMeasurable
  · show (∫⁻ n, (‖(n : ℝ)‖₊ : ℝ≥0∞) ∂(poissonPMF r).toMeasure) < ∞
    rw [MeasureTheory.lintegral_countable']
    have hterm : ∀ n : ℕ, (‖(n : ℝ)‖₊ : ℝ≥0∞) * (poissonPMF r).toMeasure {n}
        = ENNReal.ofReal (poissonPMFReal r n * n) := by
      intro n
      rw [PMF.toMeasure_apply_singleton _ _ (measurableSet_singleton n)]
      show (‖(n : ℝ)‖₊ : ℝ≥0∞) * ENNReal.ofReal (poissonPMFReal r n) = _
      rw [nnnorm_natCast, mul_comm, ENNReal.ofReal_mul poissonPMFReal_nonneg]
      congr 1
      simp
    rw [tsum_congr hterm, ← ENNReal.ofReal_tsum_of_nonneg
      (fun n => mul_nonneg poissonPMFReal_nonneg (Nat.cast_nonneg n))
      (poisson_hasSum_mean r).summable]
    exact ENNReal.ofReal_lt_top

/-- The expected value of the Poisson distribution is its rate. -/
theorem integral_natCast_poisson (r : ℝ≥0) :
    ∫ n, (n : ℝ) ∂(poissonPMF r).toMeasure = r := by
  rw [PMF.integral_eq_tsum _ _ (integrable_natCast_poisson r)]
  have hterm : ∀ n : ℕ, ((poissonPMF r) n).toReal • (n : ℝ) = poissonPMFReal r n * n := by
    intro n
    show (ENNReal.ofReal (poissonPMFReal r n)).toReal • (n : ℝ) = _
    rw [ENNReal.toReal_ofReal poissonPMFReal_nonneg, smul_eq_mul]
  rw [tsum_congr hterm, (poisson_hasSum_mean r).tsum_eq]

/-- The identity is integrable for the value-level dark pixel law. -/
theorem integrable_id_darkPixelValueLaw (rate t gain : ℝ) :
    Integrable (fun x : ℝ => x) (darkPixelValueLaw rate t gain) := by
  unfold darkPixelValueLaw
  show Integrable id _
  rw [integrable_map_measure aestronglyMeasurable_id
    measurable_natCast_real.aemeasurable]
  simpa [Function.comp] using integrable_natCast_poisson _

/-- The mean of the value-level dark pixel law is the prescribed Poisson rate. -/
theorem integral_id_darkPixelValueLaw (rate t gain : ℝ) :
    ∫ x, x ∂(darkPixelValueLaw rate t gain) = (Real.toNNReal (rate * t / gain) : ℝ) := by
  unfold darkPixelValueLaw darkPixelLaw
  show ∫ x, id x ∂_ = _
  rw [integral_map measurable_natCast_real.aemeasurable aestronglyMeasurable_id]
  exact integral_natCast_poisson _

/-- The centred Gaussian law is invariant under negation. -/
theorem gaussianReal_zero_map_neg (v : ℝ≥0) :
    Measure.map (fun x : ℝ => -1 * x) (gaussianReal 0 v) = gaussianReal 0 v := by
  rw [gaussianReal_map_const_mul (-1)]
  have h1 : (⟨(-1 : ℝ) ^ 2, sq_nonneg _⟩ : ℝ≥0) = 1 := NNReal.coe_injective (by norm_num)
  rw [h1, one_mul, mul_zero]

/-- The mean of the centred Gaussian law is zero, by symmetry. -/
theorem integral_id_gaussianReal_zero (v : ℝ≥0) :
    ∫ x, x ∂(gaussianReal 0 v) = 0 := by
  have h : ∫ x, id x ∂(Measure.map (fun x : ℝ => -1 * x) (gaussianReal 0 v))
      = ∫ x, id (-1 * x) ∂(gaussianReal 0 v) :=
    integral_map (measurable_id.const_mul (-1)).aemeasurable aestronglyMeasurable_id
  rw [gaussianReal_zero_map_neg] at h
  simp only [id_eq, neg_one_mul] at h
  rw [integral_neg] at h
  linarith

/-- The Gaussian-kernel second moment integrand is integrable. -/
theorem integrable_sq_mul_exp_neg_mul_sq {b : ℝ} (hb : 0 < b) :
    Integrable (fun x : ℝ => x ^ 2 * Real.exp (-b * x ^ 2)) := by
  have h := integrable_rpow_mul_exp_neg_mul_sq hb (show (-1 : ℝ) < 2 by norm_num)
  have heq : (fun x : ℝ => x ^ (2 : ℝ) * Real.exp (-b * x ^ 2))
      = fun x : ℝ => x ^ 2 * Real.exp (-b * x ^ 2) := by
    funext x
    rw [show (2 : ℝ) = ((2 : ℕ) : ℝ) by norm_num, Real.rpow_natCast]
  rwa [heq] at h

/-- Second moment of the Gaussian kernel, by integration by parts against
`x * exp (-b * x ^ 2)` over the whole line. -/
theorem integral_sq_mul_exp_neg_mul_sq {b : ℝ} (hb : 0 < b) :
    ∫ x : ℝ, x ^ 2 * Real.exp (-b * x ^ 2) = Real.sqrt (π / b) / (2 * b) := by
  have hderiv : ∀ x : ℝ, HasDerivAt (fun y : ℝ => y * Real.exp (-b * y ^ 2))
      (Real.exp (-b * x ^ 2) - 2 * b * (x ^ 2 * Real.exp (-b * x ^ 2))) x := by
    intro x
    have h1 : HasDerivAt (fun y : ℝ => -b * y ^ 2) (-b * (2 * x)) x := by
      simpa using (hasDerivAt_pow 2 x).const_mul (-b)
    have h2 := h1.exp
    have h3 := (hasDerivAt_id x).mul h2
    simp only [id_eq] at h3
    convert h3 using 1
    ring
  have hint_sq := integrable_sq_mul_exp_neg_mul_sq hb
  have hint_exp : Integrable (fun x : ℝ => Real.exp (-b * x ^ 2)) :=
    integrable_exp_neg_mul_sq hb
  have hint_d : Integrable (fun x : ℝ =>
      Real.exp (-b * x ^ 2) - 2 * b * (x ^ 2 * Real.exp (-b * x ^ 2))) :=
    hint_exp.sub (hint_sq.const_mul (2 * b))
  have htop : Tendsto (fun y : ℝ => y * Real.exp (-b * y ^ 2)) atTop (𝓝 0) := by
    have h1 := rpow_mul_exp_neg_mul_sq_isLittleO_exp_neg hb 1
    have hhalf : Tendsto (fun x : ℝ => Real.exp (-(1 / 2 : ℝ) * x)) atTop (𝓝 0) := by
      have h4 : Tendsto (fun x : ℝ => (1 / 2 : ℝ) * x) atTop atTop :=
        Tendsto.const_mul_atTop (by norm_num) tendsto_id
      have h5 := Real.tendsto_exp_neg_atTop_nhds_zero.comp h4
      exact h5.congr fun x => by rw [Function.comp_apply, neg_mul]
    have h3 := h1.trans_tendsto hhalf
    exact h3.congr fun x => by rw [Real.rpow_one]
  have hbot : Tendsto (fun y : ℝ => y * Real.exp (-b * y ^ 2)) atBot (𝓝 0) := by
    have hodd : ∀ x : ℝ, (-x) * Real.exp (-b * (-x) ^ 2)
        = -(x * Real.exp (-b * x ^ 2)) := by
      intro x
      rw [neg_sq]
      ring
    have h1 : Tendsto (fun x : ℝ => (-x) * Real.exp (-b * (-x) ^ 2)) atTop (𝓝 0) := by
      have h0 := htop.neg
      rw [neg_zero] at h0
      exact h0.congr fun x => (hodd x).symm
    have h2 := h1.comp tendsto_neg_atBot_atTop
    refine h2.congr fun x => ?_
    show (-(-x)) * Real.exp (-b * (-(-x)) ^ 2) = _
    rw [neg_neg]
  have key := integral_of_hasDerivAt_of_tendsto hderiv hint_d hbot htop
  have hsplit : ∫ x : ℝ,
      (Real.exp (-b * x ^ 2) - 2 * b * (x ^ 2 * Real.exp (-b * x ^ 2)))
      = (∫ x : ℝ, Real.exp (-b * x ^ 2))
        - 2 * b * ∫ x : ℝ, x ^ 2 * Real.exp (-b * x ^ 2) := by
    rw [integral_sub hint_exp (hint_sq.const_mul (2 * b)), integral_mul_left]
  rw [hsplit, integral_gaussian] at key
  have hb2 : (2 * b) ≠ 0 := by positivity
  rw [eq_div_iff hb2]
  linear_combination -key

/-- Integration against a nondegenerate centred Gaussian is integration against
its density. -/
theorem gaussianReal_integral_eq {v : ℝ≥0} (hv : v ≠ 0) (g : ℝ → ℝ) :
    ∫ x, g x ∂(gaussianReal 0 v) = ∫ x, gaussianPDFReal 0 v x * g x := by
  rw [gaussianReal_of_var_ne_zero _ hv]
  rw [show gaussianPDF 0 v
      = fun x => ((Real.toNNReal (gaussianPDFReal 0 v x) : ℝ≥0) : ℝ≥0∞) from rfl]
  rw [integral_withDensity_eq_integral_smul
    ((measurable_gaussianPDFReal 0 v).real_toNNReal)]
  congr 1
  funext x
  rw [NNReal.smul_def, Real.coe_toNNReal _ (gaussianPDFReal_nonneg 0 v x), smul_eq_mul]

/-- Integrability against a nondegenerate centred Gaussian is integrability
against its density. -/
theorem gaussianReal_integrable_iff {v : ℝ≥0} (hv : v ≠ 0) (g : ℝ → ℝ) :
    Integrable g (gaussianReal 0 v)
      ↔ Integrable (fun x => gaussianPDFReal 0 v x * g x) := by
  rw [gaussianReal_of_var_ne_zero _ hv]
  rw [show gaussianPDF 0 v
      = fun x => ((Real.toNNReal (gaussianPDFReal 0 v x) : ℝ≥0) : ℝ≥0∞) from rfl]
  rw [integrable_withDensity_iff_integrable_smul
    ((measurable_gaussianPDFReal 0 v).real_toNNReal)]
  have heq : (fun x => Real.toNNReal (gaussianPDFReal 0 v x) • g x)
      = fun x => gaussianPDFReal 0 v x * g x := by
    funext x
    rw [NNReal.smul_def, Real.coe_toNNReal _ (gaussianPDFReal_nonneg 0 v x), smul_eq_mul]
  rw [heq]

/-- The centred Gaussian density times the square function, in Gaussian-kernel
form. -/
theorem gaussianPDFReal_mul_sq {v : ℝ≥0} (hv : v ≠ 0) :
    (fun x : ℝ => gaussianPDFReal 0 v x * x ^ 2)
      = fun x : ℝ => (Real.sqrt (2 * π * v))⁻¹
          * (x ^ 2 * Real.exp (-(2 * (v : ℝ))⁻¹ * x ^ 2)) := by
  have hvpos : (0 : ℝ) < v := NNReal.coe_pos.mpr (pos_iff_ne_zero.mpr hv)
  funext x
  unfold gaussianPDFReal
  rw [sub_zero]
  have h2v : (2 * (v : ℝ)) ≠ 0 := by positivity
  have harg : -x ^ 2 / (2 * (v : ℝ)) = -(2 * (v : ℝ))⁻¹ * x ^ 2 := by
    field_simp
  rw [harg]
  ring

/-- The second moment of the centred Gaussian law is its variance parameter; with
zero mean this is exactly its variance. -/
theorem integral_sq_gaussianReal (v : ℝ≥0) :
    ∫ x, x ^ 2 ∂(gaussianReal 0 v) = v := by
  by_cases hv : v = 0
  · subst hv
    rw [gaussianReal_zero_var, integral_dirac]
    norm_num
  · have hvpos : (0 : ℝ) < v := NNReal.coe_pos.mpr (pos_iff_ne_zero.mpr hv)
    have hb : (0 : ℝ) < (2 * (v : ℝ))⁻¹ := by positivity
    rw [gaussianReal_integral_eq hv, gaussianPDFReal_mul_sq hv, integral_mul_left,
      integral_sq_mul_exp_neg_mul_sq hb]
    have hπv : (0 : ℝ) < 2 * π * v := by positivity
    have hsq : Real.sqrt (π / (2 * (v : ℝ))⁻¹) = Real.sqrt (2 * π * v) := by
      rw [div_eq_mul_inv, inv_inv]
      congr 1
      ring
    rw [hsq]
    have hs0 : Real.sqrt (2 * π * v) ≠ 0 := (Real.sqrt_pos.mpr hπv).ne'
    field_simp

/-- The square function is integrable for the centred Gaussian law. -/
theorem integrable_sq_gaussianReal (v : ℝ≥0) :
    Integrable (fun x : ℝ => x ^ 2) (gaussianReal 0 v) := by
  by_cases hv : v = 0
  · subst hv
    rw [gaussianReal_zero_var]
    constructor
    · exact (continuous_pow 2).aestronglyMeasurable
    · show (∫⁻ x, (‖x ^ 2‖₊ : ℝ≥0∞) ∂Measure.dirac (0 : ℝ)) < ∞
      rw [lintegral_dirac' _ ((continuous_pow 2).measurable.nnnorm.coe_nnreal_ennreal)]
      simp
  · have hb : (0 : ℝ) < (2 * (v : ℝ))⁻¹ := by positivity
    rw [gaussianReal_integrable_iff hv, gaussianPDFReal_mul_sq hv]
    exact (integrable_sq_mul_exp_neg_mul_sq hb).const_mul _

/-- The library raises no error on a frame exactly when no pixel's mean is
negative. -/
theorem firstSampleError_eq_none_iff (base : Arr ℝ) (rate exposure_time gain : ℚ)
    (hot : Bool) (cfg : HotConfig) (rawMask : ℕ → ℕ → Bool)
    (draw : ℕ → ℕ → ℚ → ℕ) :
    firstSampleError base rate exposure_time gain hot cfg rawMask draw = none
      ↔ ∀ i ∈ List.range base.rows, ∀ j ∈ List.range base.cols,
          ¬ pixelMean (pixelRate rate hot cfg rawMask i j) exposure_time gain < 0 := by
  unfold firstSampleError
  rw [List.findSome?_eq_none_iff]
  constructor
  · intro h i hi j hj
    have h1 := h i hi
    rw [List.findSome?_eq_none_iff] at h1
    have h2 := h1 j hj
    unfold libPoissonSample at h2
    intro hneg
    rw [if_pos hneg] at h2
    simp at h2
  · intro h i hi
    rw [List.findSome?_eq_none_iff]
    intro j hj
    unfold libPoissonSample
    rw [if_neg (h i hi j hj)]

/-- Any error raised on a frame is the library's domain error, and it pins down a
pixel whose mean was negative. -/
theorem firstSampleError_some (base : Arr ℝ) (rate exposure_time gain : ℚ)
    (hot : Bool) (cfg : HotConfig) (rawMask : ℕ → ℕ → Bool)
    (draw : ℕ → ℕ → ℚ → ℕ) (e : String)
    (h : firstSampleError base rate exposure_time gain hot cfg rawMask draw = some e) :
    e = "ValueError: lam < 0" ∧ ∃ i < base.rows, ∃ j < base.cols,
      pixelMean (pixelRate rate hot cfg rawMask i j) exposure_time gain < 0 := by
  unfold firstSampleError at h
  obtain ⟨i, hi, h2⟩ := List.exists_of_findSome?_eq_some h
  obtain ⟨j, hj, h3⟩ := List.exists_of_findSome?_eq_some h2
  rw [List.mem_range] at hi hj
  unfold libPoissonSample at h3
  by_cases hneg : pixelMean (pixelRate rate hot cfg rawMask i j) exposure_time gain < 0
  · rw [if_pos hneg] at h3
    simp at h3
    exact ⟨h3.symm, i, hi, j, hj, hneg⟩
  · rw [if_neg hneg] at h3
    simp at h3

/-- The library raises no error on a read-noise frame exactly when the standard
deviation handed to it at each pixel is not negative. -/
theorem firstGaussError_eq_none_iff (base : Arr ℝ) (read_noise_electrons gain : ℚ)
    (draw : ℕ → ℕ → ℚ → ℝ) :
    firstGaussError base read_noise_electrons gain draw = none
      ↔ ∀ i ∈ List.range base.rows, ∀ j ∈ List.range base.cols,
          ¬ read_noise_electrons / gain < 0 := by
  unfold firstGaussError
  rw [List.findSome?_eq_none_iff]
  constructor
  · intro h i hi j hj
    have h1 := h i hi
    rw [List.findSome?_eq_none_iff] at h1
    have h2 := h1 j hj
    unfold libGaussSample at h2
    intro hneg
    rw [if_pos hneg] at h2
    simp at h2
  · intro h i hi
    rw [List.findSome?_eq_none_iff]
    intro j hj
    unfold libGaussSample
    rw [if_neg (h i hi j hj)]

/-- Any error raised on a read-noise frame is the library's domain error for a
negative standard deviation, on a nonempty frame. -/
theorem firstGaussError_some (base : Arr ℝ) (read_noise_electrons gain : ℚ)
    (draw : ℕ → ℕ → ℚ → ℝ) (e : String)
    (h : firstGaussError base read_noise_electrons gain draw = some e) :
    e = "ValueError: scale < 0" ∧ read_noise_electrons / gain < 0
      ∧ 0 < base.rows ∧ 0 < base.cols := by
  unfold firstGaussError at h
  obtain ⟨i, hi, h2⟩ := List.exists_of_findSome?_eq_some h
  obtain ⟨j, hj, h3⟩ := List.exists_of_findSome?_eq_some h2
  rw [List.mem_range] at hi hj
  unfold libGaussSample at h3
  by_cases hneg : read_noise_electrons / gain < 0
  · rw [if_pos hneg] at h3
    simp at h3
    exact ⟨h3.symm, hneg, (Nat.zero_le i).trans_lt hi, (Nat.zero_le j).trans_lt hj⟩
  · rw [if_neg hneg] at h3
    simp at h3

/-! ## Claims -/

/-- C1: for every template, non-negative rate and exposure time and positive gain,
each pixel of `dark_current` is governed by a Poisson law with mean
`rate * exposure_time / gain`: consequently the expected value of every pixel
equals that mean, and (strong law of large numbers) the sample mean over many
independently generated frames converges almost surely to it. -/
theorem dark_current_poisson_mean (rate exposure_time gain : ℝ)
    (hrate : 0 ≤ rate) (hexp : 0 ≤ exposure_time) (hgain : 0 < gain)
    {Ω : Type} {mΩ : MeasurableSpace Ω} {μ : Measure Ω}
    (X : ℕ → Ω → ℝ)
    (hlaw : ∀ i, Measure.map (X i) μ = darkPixelValueLaw rate exposure_time gain)
    (hindep : Pairwise fun i j => IndepFun (X i) (X j) μ) :
    (∫ ω, X 0 ω ∂μ = rate * exposure_time / gain)
    ∧ ∀ᵐ ω ∂μ, Tendsto (fun n : ℕ => (∑ i ∈ Finset.range n, X i ω) / n) atTop
        (𝓝 (rate * exposure_time / gain)) := by
  have hmean : (Real.toNNReal (rate * exposure_time / gain) : ℝ)
      = rate * exposure_time / gain := by
    rw [Real.coe_toNNReal]
    positivity
  have hprob : IsProbabilityMeasure (darkPixelValueLaw rate exposure_time gain) := by
    unfold darkPixelValueLaw
    exact isProbabilityMeasure_map measurable_natCast_real.aemeasurable
  have haem : ∀ i, AEMeasurable (X i) μ := fun i =>
    aemeasurable_of_map_neZero (by rw [hlaw i]; infer_instance)
  have hident : ∀ i, IdentDistrib (X i) (X 0) μ μ := fun i =>
    ⟨haem i, haem 0, by rw [hlaw i, hlaw 0]⟩
  have hint : Integrable (X 0) μ := by
    have h := integrable_id_darkPixelValueLaw rate exposure_time gain
    rw [← hlaw 0, show (fun x : ℝ => x) = id from rfl,
      integrable_map_measure aestronglyMeasurable_id (haem 0)] at h
    simpa [Function.comp] using h
  have hexp0 : ∫ ω, X 0 ω ∂μ = rate * exposure_time / gain := by
    have h : ∫ x, id x ∂(Measure.map (X 0) μ) = ∫ ω, id (X 0 ω) ∂μ :=
      integral_map (haem 0) aestronglyMeasurable_id
    rw [hlaw 0] at h
    have h2 : ∫ x, id x ∂(darkPixelValueLaw rate exposure_time gain)
        = rate * exposure_time / gain := by
      show ∫ x, x ∂(darkPixelValueLaw rate exposure_time gain) = _
      rw [integral_id_darkPixelValueLaw, hmean]
    rw [h2] at h
    exact h.symm
  refine ⟨hexp0, ?_⟩
  have hlln := strong_law_ae_real X hint (fun i j hij => hindep hij) hident
  rw [hexp0] at hlln
  exact hlln

/-- C1 witness: the expectation half of `dark_current_poisson_mean` at rate `0`,
exposure `1`, gain `1`, on the one-point probability space carrying the constant
zero pixel variables. -/
theorem dark_current_poisson_mean_witness :
    ∫ ω, (fun _ : ℕ => (0 : ℝ)) ω ∂(Measure.dirac (0 : ℕ)) = 0 * 1 / 1 :=
  (dark_current_poisson_mean 0 1 1 le_rfl zero_le_one one_pos
    (fun _ _ => (0 : ℝ))
    (fun _ => map_const_zero_dirac.trans (darkPixelValueLaw_zero 1 1).symm)
    (fun _ _ _ => indepFun_const_of_prob 0 0)).1

/-- C2: for every template, `read_noise_electrons ≥ 0` and positive gain, each pixel
of `read_noise` is governed by a zero-mean Gaussian law with standard deviation
`read_noise_electrons / gain`: the expected value of every pixel is `0`, and (strong
law of large numbers) the mean square over many independently drawn pixels converges
almost surely to the square of `read_noise_electrons / gain` — the sample standard
deviation of a read-noise-only output approximates `read_noise_electrons / gain`. -/
theorem read_noise_gaussian_stddev (read_noise_electrons gain : ℝ)
    (hrn : 0 ≤ read_noise_electrons) (hgain : 0 < gain)
    {Ω : Type} {mΩ : MeasurableSpace Ω} {μ : Measure Ω}
    (X : ℕ → Ω → ℝ)
    (hlaw : ∀ i, Measure.map (X i) μ = readPixelLaw read_noise_electrons gain)
    (hindep : Pairwise fun i j => IndepFun (X i) (X j) μ) :
    (∫ ω, X 0 ω ∂μ = 0)
    ∧ ∀ᵐ ω ∂μ, Tendsto (fun n : ℕ => (∑ i ∈ Finset.range n, X i ω ^ 2) / n) atTop
        (𝓝 ((read_noise_electrons / gain) ^ 2)) := by
  have hσ : (Real.toNNReal (read_noise_electrons / gain) : ℝ)
      = read_noise_electrons / gain := by
    rw [Real.coe_toNNReal]
    positivity
  have hprob : IsProbabilityMeasure (readPixelLaw read_noise_electrons gain) := by
    unfold readPixelLaw
    infer_instance
  have haem : ∀ i, AEMeasurable (X i) μ := fun i =>
    aemeasurable_of_map_neZero (by rw [hlaw i]; infer_instance)
  have hmean : ∫ ω, X 0 ω ∂μ = 0 := by
    have h : ∫ x, id x ∂(Measure.map (X 0) μ) = ∫ ω, id (X 0 ω) ∂μ :=
      integral_map (haem 0) aestronglyMeasurable_id
    rw [hlaw 0] at h
    have h2 : ∫ x, id x ∂(readPixelLaw read_noise_electrons gain) = 0 := by
      show ∫ x, x ∂(readPixelLaw read_noise_electrons gain) = 0
      exact integral_id_gaussianReal_zero _
    rw [h2] at h
    exact h.symm
  refine ⟨hmean, ?_⟩
  have hmeas_sq : Measurable (fun x : ℝ => x ^ 2) := (continuous_pow 2).measurable
  set Y : ℕ → Ω → ℝ := fun i ω => X i ω ^ 2 with hY
  have hintY : Integrable (Y 0) μ := by
    have h : Integrable (fun x : ℝ => x ^ 2) (readPixelLaw read_noise_electrons gain) :=
      integrable_sq_gaussianReal _
    rw [← hlaw 0, integrable_map_measure (continuous_pow 2).aestronglyMeasurable
      (haem 0)] at h
    simpa [hY, Function.comp] using h
  have hidentY : ∀ i, IdentDistrib (Y i) (Y 0) μ μ := fun i => by
    have hid : IdentDistrib (X i) (X 0) μ μ := ⟨haem i, haem 0, by rw [hlaw i, hlaw 0]⟩
    exact hid.comp hmeas_sq
  have hindepY : Pairwise ((IndepFun · · μ) on Y) := fun i j hij =>
    (hindep hij).comp hmeas_sq hmeas_sq
  have hlln := strong_law_ae_real Y hintY hindepY hidentY
  have hEY : ∫ ω, Y 0 ω ∂μ = (read_noise_electrons / gain) ^ 2 := by
    have h : ∫ x, (fun x : ℝ => x ^ 2) x ∂(Measure.map (X 0) μ)
        = ∫ ω, (fun x : ℝ => x ^ 2) (X 0 ω) ∂μ :=
      integral_map (haem 0) (continuous_pow 2).aestronglyMeasurable
    rw [hlaw 0] at h
    have h2 : ∫ x, (fun x : ℝ => x ^ 2) x ∂(readPixelLaw read_noise_electrons gain)
        = (read_noise_electrons / gain) ^ 2 := by
      show ∫ x, x ^ 2 ∂(readPixelLaw read_noise_electrons gain) = _
      unfold readPixelLaw
      rw [integral_sq_gaussianReal]
      push_cast
      rw [hσ]
    rw [h2] at h
    exact h.symm
  rw [hEY] at hlln
  exact hlln

/-- C2 witness: the zero-mean half of `read_noise_gaussian_stddev` at zero read
noise and gain `1`, on the one-point probability space carrying the constant zero
pixel variables. -/
theorem read_noise_gaussian_stddev_witness :
    ∫ ω, (fun _ : ℕ => (0 : ℝ)) ω ∂(Measure.dirac (0 : ℕ)) = 0 :=
  (read_noise_gaussian_stddev 0 1 le_rfl one_pos
    (fun _ _ => (0 : ℝ))
    (fun _ => map_const_zero_dirac.trans (readPixelLaw_zero 1).symm)
    (fun _ _ _ => indepFun_const_of_prob 0 0)).1

/-- C3: for every call, the arrays returned by `dark_current` and `read_noise` have
exactly the same shape (both dimensions) as the template `base_frame`, and the
hot-pixel mask produced in a call has the same shape as the frame it belongs to. -/
theorem generator_output_shape (base : Arr ℝ) (rate exposure_time gain rn : ℚ)
    (hot : Bool) (cfg : HotConfig) (rawMask : ℕ → ℕ → Bool)
    (drawD : ℕ → ℕ → ℚ → ℕ) (drawR : ℕ → ℕ → ℚ → ℝ) :
    (dark_current base rate exposure_time gain hot cfg rawMask drawD).shape = base.shape
      ∧ (read_noise base rn gain drawR).shape = base.shape
      ∧ (hotMask base rawMask).shape = base.shape :=
  ⟨rfl, rfl, rfl⟩

/-- C4: `dark_current` and `read_noise` do not mutate their template: each returned
frame is built from fresh draws only — its value does not depend on the template's
entries at all, only on its shape — and iterating the notebook's generation loop any
number of times leaves the shared `base_image` template unchanged (the all-zero
template stays all-zero). -/
theorem generator_no_mutation :
    (∀ (r c : ℕ) (d₁ d₂ : ℕ → ℕ → ℝ) (rate exposure_time gain : ℚ) (hot : Bool)
        (cfg : HotConfig) (rawMask : ℕ → ℕ → Bool) (drawD : ℕ → ℕ → ℚ → ℕ),
      dark_current ⟨r, c, d₁⟩ rate exposure_time gain hot cfg rawMask drawD
        = dark_current ⟨r, c, d₂⟩ rate exposure_time gain hot cfg rawMask drawD)
    ∧ (∀ (r c : ℕ) (d₁ d₂ : ℕ → ℕ → ℝ) (rn gain : ℚ) (drawR : ℕ → ℕ → ℚ → ℝ),
      read_noise ⟨r, c, d₁⟩ rn gain drawR = read_noise ⟨r, c, d₂⟩ rn gain drawR)
    ∧ (∀ (rate exposure_time gain rn : ℚ) (cfg : HotConfig)
        (rawMask : ℕ → ℕ → Bool) (drawD : ℕ → ℕ → ℚ → ℕ) (drawR : ℕ → ℕ → ℚ → ℝ)
        (s : SimLoopState) (n : ℕ),
      ((darkLoopStep rate exposure_time gain rn cfg rawMask drawD drawR)^[n]
          s).base_image = s.base_image) := by
  refine ⟨fun _ _ _ _ _ _ _ _ _ _ _ => rfl, fun _ _ _ _ _ _ _ => rfl, ?_⟩
  intro rate exposure_time gain rn cfg rawMask drawD drawR s n
  induction n generalizing s with
  | zero => rfl
  | succ k ih =>
    rw [Function.iterate_succ_apply]
    exact (ih _).trans rfl

/-- C5: with a zero dark-current rate the per-pixel law of `dark_current` is the
point mass at zero, and with zero read noise the per-pixel law of `read_noise` is
the point mass at zero, so every pixel of the output is exactly zero; the outputs
still have the template's shape. -/
theorem zero_rate_zero_noise_all_zero (t g : ℝ) (exposure_time gain : ℚ)
    (base : Arr ℝ) (cfg : HotConfig) (rawMask : ℕ → ℕ → Bool)
    (drawD : ℕ → ℕ → ℚ → ℕ) (drawR : ℕ → ℕ → ℚ → ℝ) :
    darkPixelLaw 0 t g = PMF.pure 0
      ∧ readPixelLaw 0 g = Measure.dirac 0
      ∧ (dark_current base 0 exposure_time gain false cfg rawMask drawD).shape
          = base.shape
      ∧ (read_noise base 0 gain drawR).shape = base.shape := by
  refine ⟨?_, ?_, rfl, rfl⟩
  · unfold darkPixelLaw
    rw [show (0 : ℝ) * t / g = 0 by ring, Real.toNNReal_zero]
    exact poissonPMF_zero_eq_pure
  · unfold readPixelLaw
    rw [zero_div, Real.toNNReal_zero]
    simp [gaussianReal_zero_var]

/-- C6: `dark_current` and `read_noise` perform no validation or recovery of their
own: with valid numeric parameters each returns the sampled frame, any error
either reports is exactly the underlying library's domain error (a negative
Poisson mean, respectively a negative Gaussian standard deviation), propagated
verbatim to the caller, and an invalid numeric parameter always produces that
library error — the only failure mode of either generator. -/
theorem invalid_parameter_propagation (base : Arr ℝ) (rate exposure_time gain : ℚ)
    (hot : Bool) (cfg : HotConfig) (rawMask : ℕ → ℕ → Bool) (draw : ℕ → ℕ → ℚ → ℕ)
    (read_noise_electrons gainR : ℚ) (drawR : ℕ → ℕ → ℚ → ℝ) :
    ((∀ i j, i < base.rows → j < base.cols →
        0 ≤ pixelMean (pixelRate rate hot cfg rawMask i j) exposure_time gain) →
      dark_currentE base rate exposure_time gain hot cfg rawMask draw
        = Except.ok (dark_current base rate exposure_time gain hot cfg rawMask draw))
    ∧ (∀ e, dark_currentE base rate exposure_time gain hot cfg rawMask draw
        = Except.error e →
      e = "ValueError: lam < 0" ∧ ∃ i < base.rows, ∃ j < base.cols,
        pixelMean (pixelRate rate hot cfg rawMask i j) exposure_time gain < 0)
    ∧ ((∃ i < base.rows, ∃ j < base.cols,
        pixelMean (pixelRate rate hot cfg rawMask i j) exposure_time gain < 0) →
      dark_currentE base rate exposure_time gain hot cfg rawMask draw
        = Except.error "ValueError: lam < 0")
    ∧ (0 ≤ read_noise_electrons / gainR →
      read_noiseE base read_noise_electrons gainR drawR
        = Except.ok (read_noise base read_noise_electrons gainR drawR))
    ∧ (∀ e, read_noiseE base read_noise_electrons gainR drawR = Except.error e →
      e = "ValueError: scale < 0" ∧ read_noise_electrons / gainR < 0)
    ∧ (read_noise_electrons / gainR < 0 → 0 < base.rows → 0 < base.cols →
      read_noiseE base read_noise_electrons gainR drawR
        = Except.error "ValueError: scale < 0") := by
  refine ⟨?_, ?_, ?_, ?_, ?_, ?_⟩
  · intro h
    unfold dark_currentE
    have hn : firstSampleError base rate exposure_time gain hot cfg rawMask draw
        = none := by
      rw [firstSampleError_eq_none_iff]
      intro i hi j hj
      rw [List.mem_range] at hi hj
      exact not_lt.mpr (h i j hi hj)
    rw [hn]
  · intro e he
    unfold dark_currentE at he
    cases hfs : firstSampleError base rate exposure_time gain hot cfg rawMask draw with
    | none =>
      rw [hfs] at he
      simp at he
    | some s =>
      rw [hfs] at he
      simp only [Except.error.injEq] at he
      subst he
      exact firstSampleError_some base rate exposure_time gain hot cfg rawMask draw s hfs
  · rintro ⟨i, hi, j, hj, hneg⟩
    unfold dark_currentE
    cases hfs : firstSampleError base rate exposure_time gain hot cfg rawMask draw with
    | none =>
      exfalso
      rw [firstSampleError_eq_none_iff] at hfs
      exact hfs i (List.mem_range.mpr hi) j (List.mem_range.mpr hj) hneg
    | some s =>
      rw [(firstSampleError_some base rate exposure_time gain hot cfg rawMask draw
        s hfs).1]
  · intro h
    unfold read_noiseE
    have hn : firstGaussError base read_noise_electrons gainR drawR = none := by
      rw [firstGaussError_eq_none_iff]
      intro i _ j _
      exact not_lt.mpr h
    rw [hn]
  · intro e he
    unfold read_noiseE at he
    cases hfs : firstGaussError base read_noise_electrons gainR drawR with
    | none =>
      rw [hfs] at he
      simp at he
    | some s =>
      rw [hfs] at he
      simp only [Except.error.injEq] at he
      subst he
      have h := firstGaussError_some base read_noise_electrons gainR drawR s hfs
      exact ⟨h.1, h.2.1⟩
  · intro hneg hr hc
    unfold read_noiseE
    cases hfs : firstGaussError base read_noise_electrons gainR drawR with
    | none =>
      exfalso
      rw [firstGaussError_eq_none_iff] at hfs
      exact hfs 0 (List.mem_range.mpr hr) 0 (List.mem_range.mpr hc) hneg
    | some s =>
      rw [(firstGaussError_some base read_noise_electrons gainR drawR s hfs).1]

/-- C6 witness: a negative dark-current rate on a 1×1 template yields exactly the
Poisson sampler's domain error, and a negative read-noise level yields exactly the
Gaussian sampler's domain error. -/
theorem invalid_parameter_propagation_witness :
    dark_currentE (zeros 1 1) (-1) 1 1 false ⟨0, 0⟩ (fun _ _ => false)
        (fun _ _ _ => 0)
      = Except.error "ValueError: lam < 0"
    ∧ read_noiseE (zeros 1 1) (-1) 1 (fun _ _ _ => 0)
      = Except.error "ValueError: scale < 0" := by
  constructor
  · refine (invalid_parameter_propagation (zeros 1 1) (-1) 1 1 false ⟨0, 0⟩
      (fun _ _ => false) (fun _ _ _ => 0) (-1) 1 (fun _ _ _ => 0)).2.2.1
      ⟨0, ?_, 0, ?_, ?_⟩
    · norm_num [zeros]
    · norm_num [zeros]
    · norm_num [pixelMean, pixelRate]
  · refine (invalid_parameter_propagation (zeros 1 1) (-1) 1 1 false ⟨0, 0⟩
      (fun _ _ => false) (fun _ _ _ => 0) (-1) 1 (fun _ _ _ => 0)).2.2.2.2.2
      ?_ ?_ ?_
    · norm_num
    · norm_num [zeros]
    · norm_num [zeros]

/-- C8: when `hot_pixels` is enabled and the mask marks the configured fraction of
the frame, the pixels drawn with an elevated rate are exactly the masked pixels,
their number is exactly the configured hot-pixel fraction of the pixel count, and
each of them uses the substantially higher rate; when `hot_pixels` is disabled,
every pixel uses the supplied rate and no pixel is elevated. -/
theorem hot_pixels_fraction (rate : ℚ) (cfg : HotConfig) (rawMask : ℕ → ℕ → Bool)
    (r c : ℕ) (hboost : rate < cfg.boost) (hvalid : MaskValid cfg r c rawMask) :
    elevatedPixels rate true cfg rawMask r c
        = (pixelIndices r c).filter (fun p => rawMask p.1 p.2)
    ∧ (elevatedPixels rate true cfg rawMask r c).card = hotCount cfg r c
    ∧ (∀ i j, rawMask i j = true → pixelRate rate true cfg rawMask i j = cfg.boost)
    ∧ (∀ i j, rawMask i j = false → pixelRate rate true cfg rawMask i j = rate)
    ∧ (∀ i j, pixelRate rate false cfg rawMask i j = rate)
    ∧ elevatedPixels rate false cfg rawMask r c = ∅ := by
  have hset : elevatedPixels rate true cfg rawMask r c
      = (pixelIndices r c).filter (fun p => rawMask p.1 p.2) := by
    unfold elevatedPixels
    apply Finset.filter_congr
    intro p _
    unfold pixelRate
    cases hm : rawMask p.1 p.2 <;> simp [hm, hboost.ne']
  refine ⟨hset, ?_, ?_, ?_, ?_, ?_⟩
  · rw [hset]
    exact hvalid
  · intro i j h
    unfold pixelRate
    simp [h]
  · intro i j h
    unfold pixelRate
    simp [h]
  · intro i j
    unfold pixelRate
    simp
  · unfold elevatedPixels pixelRate
    simp

/-- C8 witness: `hot_pixels_fraction` at a concrete 10×10 frame with a 1% hot-pixel
fraction and a mask marking exactly one pixel. -/
theorem hot_pixels_fraction_witness :
    (elevatedPixels 1 true ⟨mkRat 1 100, 2⟩ (fun i j => i == 0 && j == 0) 10 10).card
      = hotCount ⟨mkRat 1 100, 2⟩ 10 10 :=
  (hot_pixels_fraction 1 ⟨mkRat 1 100, 2⟩ (fun i j => i == 0 && j == 0) 10 10
    (by norm_num)
    (by
      unfold MaskValid hotCount
      have h1 : (mkRat 1 100 * (((10 : ℕ) : ℚ) * ((10 : ℕ) : ℚ))) = 1 := by
        rw [Rat.mkRat_eq_div]
        norm_num
      rw [h1, Nat.floor_one]
      decide)).2.1

/-- C7: with identical random sources (the situation produced by seeding the
underlying generator identically) two calls of `dark_current` or `read_noise` with
equal arguments return equal arrays; with the random source unconstrained, two calls
with equal arguments can return different arrays, so reproducibility is not
guaranteed unless the caller seeds the random source. -/
theorem seeded_reproducibility :
    (∀ (base : Arr ℝ) (rate exposure_time gain : ℚ) (hot : Bool) (cfg : HotConfig)
        (rawMask : ℕ → ℕ → Bool) (d₁ d₂ : ℕ → ℕ → ℚ → ℕ), d₁ = d₂ →
      dark_current base rate exposure_time gain hot cfg rawMask d₁
        = dark_current base rate exposure_time gain hot cfg rawMask d₂)
    ∧ (∀ (base : Arr ℝ) (rn gain : ℚ) (d₁ d₂ : ℕ → ℕ → ℚ → ℝ), d₁ = d₂ →
      read_noise base rn gain d₁ = read_noise base rn gain d₂)
    ∧ (∃ (base : Arr ℝ) (rate exposure_time gain : ℚ) (hot : Bool) (cfg : HotConfig)
        (rawMask : ℕ → ℕ → Bool) (d₁ d₂ : ℕ → ℕ → ℚ → ℕ),
      dark_current base rate exposure_time gain hot cfg rawMask d₁
        ≠ dark_current base rate exposure_time gain hot cfg rawMask d₂)
    ∧ (∃ (base : Arr ℝ) (rn gain : ℚ) (d₁ d₂ : ℕ → ℕ → ℚ → ℝ),
      read_noise base rn gain d₁ ≠ read_noise base rn gain d₂) := by
  refine ⟨fun _ _ _ _ _ _ _ _ _ h => by rw [h], fun _ _ _ _ _ h => by rw [h], ?_, ?_⟩
  · refine ⟨zeros 1 1, 1, 1, 1, false, ⟨0, 0⟩, fun _ _ => false,
      fun _ _ _ => 0, fun _ _ _ => 1, fun h => ?_⟩
    have h0 := congrArg (fun a => a.data 0 0) h
    simp [dark_current, zeros] at h0
  · refine ⟨zeros 1 1, 1, 1, fun _ _ _ => 0, fun _ _ _ => 1, fun h => ?_⟩
    have h0 := congrArg (fun a => a.data 0 0) h
    simp [read_noise, zeros] at h0

/-- C7 witness: the deterministic half of `seeded_reproducibility` applied to a
concrete call with an identically seeded (equal) random source. -/
theorem seeded_reproducibility_witness :
    dark_current (zeros 2 2) (1/10) 100 (3/2) false ⟨1/100, 2⟩ (fun _ _ => false)
        (fun _ _ _ => 7)
      = dark_current (zeros 2 2) (1/10) 100 (3/2) false ⟨1/100, 2⟩ (fun _ _ => false)
        (fun _ _ _ => 7) :=
  seeded_reproducibility.1 (zeros 2 2) (1/10) 100 (3/2) false ⟨1/100, 2⟩
    (fun _ _ => false) (fun _ _ _ => 7) (fun _ _ _ => 7) rfl

/-- C9: in `plot_dark_with_distributions` the Poisson overlay's mean is
`(dark_rate * exposure / gain) * n_images` for every `n_images`, while the Gaussian
overlay's scale is `rn / gain` independently of `n_images`; the sum-of-frames cell
instead scales the Gaussian by `sqrt(n_images)`, and the two Gaussian scales agree
exactly when `n_images = 1` (at which point the locations also agree). -/
theorem plot_overlay_params (dark_rate exposure gain rn : ℝ) (hrg : rn / gain ≠ 0) :
    (∀ n_images : ℕ, plotPoissonMean dark_rate exposure gain n_images
      = dark_rate * exposure / gain * n_images)
    ∧ (∀ n₁ n₂ : ℕ, plotGaussScale rn gain n₁ = plotGaussScale rn gain n₂)
    ∧ (∀ n_images : ℕ,
      (plotGaussScale rn gain n_images = sumCellGaussScale rn gain n_images
        ↔ n_images = 1))
    ∧ plotGaussLoc dark_rate exposure gain 1 = sumCellGaussLoc dark_rate exposure gain 1 := by
  refine ⟨fun n => rfl, fun n₁ n₂ => rfl, fun n => ?_,
    by simp [plotGaussLoc, sumCellGaussLoc]⟩
  unfold plotGaussScale sumCellGaussScale
  constructor
  · intro h
    have h2 : rn / gain * 1 = rn / gain * Real.sqrt n := by rw [mul_one]; exact h
    have h3 : (n : ℝ) = 1 := Real.sqrt_eq_one.mp (mul_left_cancel₀ hrg h2).symm
    exact_mod_cast h3
  · rintro rfl
    simp

/-- C9 witness: the overlay-scale comparison at the concrete values
`rn = 10`, `gain = 3/2`, `n_images = 20` used by the notebook. -/
theorem plot_overlay_params_witness :
    (10 : ℝ) / (3/2) ≠ 0
      ∧ (plotGaussScale 10 (3/2) 20 = sumCellGaussScale 10 (3/2) 20 ↔ 20 = 1) :=
  ⟨by norm_num, ((plot_overlay_params (1/10) 100 (3/2) 10 (by norm_num)).2.2.1 20)⟩

/-- C10: the fake-image generation loop of notebook 01.09 writes exactly 28 files
with sequential indices 0 through 27 (named `img-0000.fits` … `img-0027.fits`), in
type order BIAS (5), DARK (10), FLAT (3), LIGHT (10); every image has shape
`[300, 200]` and carries `IMAGETYP` and `EXPOSURE`, with exposure times cycling
through the per-type list (DARK frames alternate 5.0 and 30.0 seconds); `FILTER` is
written only for FLAT and LIGHT images (always `V`), and `OBJECT` only for LIGHT
images, alternating `m82` and `xx cyg`. -/
theorem fake_image_generation_spec :
    generated_images.length = 28
    ∧ generated_images.map (fun im => im.fileIndex) = List.range 28
    ∧ fitsFileName 0 = "img-0000.fits" ∧ fitsFileName 27 = "img-0027.fits"
    ∧ generated_images.map (fun im => im.imagetyp)
      = List.replicate 5 "BIAS" ++ List.replicate 10 "DARK"
        ++ List.replicate 3 "FLAT" ++ List.replicate 10 "LIGHT"
    ∧ (∀ im ∈ generated_images, im.shape = [300, 200])
    ∧ ((generated_images.filter fun im => im.imagetyp == "DARK").map
        fun im => im.exposure) = [5, 30, 5, 30, 5, 30, 5, 30, 5, 30]
    ∧ (∀ im ∈ generated_images, im.imagetyp = "BIAS" → im.exposure = 0)
    ∧ ((generated_images.filter fun im => im.imagetyp == "FLAT").map
        fun im => im.exposure) = [5, mkRat 61 10, mkRat 73 10]
    ∧ (∀ im ∈ generated_images, im.imagetyp = "LIGHT" → im.exposure = 30)
    ∧ (∀ im ∈ generated_images,
        (im.filterName.isSome ↔ (im.imagetyp = "FLAT" ∨ im.imagetyp = "LIGHT")))
    ∧ (∀ im ∈ generated_images, im.filterName = some "V" ∨ im.filterName = none)
    ∧ (∀ im ∈ generated_images, (im.objectName.isSome ↔ im.imagetyp = "LIGHT"))
    ∧ ((generated_images.filter fun im => im.imagetyp == "LIGHT").map
        fun im => im.objectName)
      = [some "m82", some "xx cyg", some "m82", some "xx cyg", some "m82",
         some "xx cyg", some "m82", some "xx cyg", some "m82", some "xx cyg"] := by
  decide

end CCDGuide
